import Mathlib

/-!
The car builder of `builder_example_2`.

A shallow embedding of `carBuilder.go` and of the builder expression of `main.go`.

Go allocates a `CarBuilder` on the heap and hands out a `*CarBuilder`.  Here the heap is an
explicit store of builders that every method receives and returns, a `*CarBuilder` is either
`nil` or the address of a cell of that store, and dereferencing `nil` is the run-time panic
of Go, reported as a `Fault`.
-/

namespace BuilderExample2

/-- Modelled from the spec: the declaration of `type Car struct` is not part of the two source
files.  The field names are the ones the setters of `carBuilder.go` assign to, the field types
are the parameter types of those setters (`string`, and `int` for the year), as in the data model
of the spec: `brand: string`, `model: string`, `year: integer`, `engine: string`,
`color: string`.  Go's `int` is a bounded machine integer; no operation of the builder does
arithmetic on it, so it is embedded in `Int`. -/
structure Car where
  Brand : String
  Model : String
  Year : Int
  Engine : String
  Color : String
deriving DecidableEq, Repr

/-- The value Go gives a `Car` nobody has written to: every string empty, the year zero. -/
def Car.zero : Car := ⟨"", "", 0, "", ""⟩

/-- Source: `type CarBuilder struct { car Car }`. -/
structure CarBuilder where
  car : Car
deriving DecidableEq, Repr

/-- The composite literal `CarBuilder{}`: all fields zero. -/
def CarBuilder.zero : CarBuilder := ⟨Car.zero⟩

/-- The store of allocated builders; the address of a builder is its index. -/
abbrev Heap := List CarBuilder

/-- A value of type `*CarBuilder`. -/
inductive Ptr where
  | null : Ptr
  | addr (a : Nat) : Ptr
deriving DecidableEq, Repr

/-- What stops a call.  `nilDereference` is Go's panic on `c.car` with `c == nil`.
`unallocated` is the reading of an address outside the store; Go never produces such a
pointer, and the embedding reports it instead of inventing a builder. -/
inductive Fault where
  | nilDereference : Fault
  | unallocated : Fault
deriving DecidableEq, Repr

/-- The pointer refers to an allocated builder of the store. -/
def Live (h : Heap) : Ptr → Prop
  | Ptr.null => False
  | Ptr.addr a => a < h.length

instance (h : Heap) (c : Ptr) : Decidable (Live h c) := by
  cases c <;> unfold Live <;> infer_instance

/-- The read `*c`. -/
def load (c : Ptr) (h : Heap) : Except Fault CarBuilder :=
  match c with
  | Ptr.null => Except.error Fault.nilDereference
  | Ptr.addr a =>
    match h[a]? with
    | none => Except.error Fault.unallocated
    | some b => Except.ok b

/-- The assignment `c.car.F = v`, with `f` the overwrite of field `F` by `v` in a `Car`:
the builder `c` points to is changed in place, every other cell of the store is kept. -/
def assign (c : Ptr) (f : Car → Car) (h : Heap) : Except Fault Heap :=
  match c with
  | Ptr.null => Except.error Fault.nilDereference
  | Ptr.addr a =>
    match h[a]? with
    | none => Except.error Fault.unallocated
    | some b => Except.ok (h.set a { b with car := f b.car })

/-- Source: `func NewCarBuilder() *CarBuilder { return &CarBuilder{} }`. -/
def NewCarBuilder (h : Heap) : Except Fault (Ptr × Heap) :=
  Except.ok (Ptr.addr h.length, h ++ [CarBuilder.zero])

/-- Source: `c.car.Brand = brand; return c`. -/
def SetBrand (c : Ptr) (brand : String) (h : Heap) : Except Fault (Ptr × Heap) :=
  match assign c (fun car => { car with Brand := brand }) h with
  | Except.error e => Except.error e
  | Except.ok h1 => Except.ok (c, h1)

/-- Source: `c.car.Model = model; return c`. -/
def SetModel (c : Ptr) (model : String) (h : Heap) : Except Fault (Ptr × Heap) :=
  match assign c (fun car => { car with Model := model }) h with
  | Except.error e => Except.error e
  | Except.ok h1 => Except.ok (c, h1)

/-- Source: `c.car.Year = year; return c`. -/
def SetYear (c : Ptr) (year : Int) (h : Heap) : Except Fault (Ptr × Heap) :=
  match assign c (fun car => { car with Year := year }) h with
  | Except.error e => Except.error e
  | Except.ok h1 => Except.ok (c, h1)

/-- Source: `c.car.Engine = engine; return c`. -/
def SetEngine (c : Ptr) (engine : String) (h : Heap) : Except Fault (Ptr × Heap) :=
  match assign c (fun car => { car with Engine := engine }) h with
  | Except.error e => Except.error e
  | Except.ok h1 => Except.ok (c, h1)

/-- Source: `c.car.Color = color; return c`. -/
def SetColor (c : Ptr) (color : String) (h : Heap) : Except Fault (Ptr × Heap) :=
  match assign c (fun car => { car with Color := color }) h with
  | Except.error e => Except.error e
  | Except.ok h1 => Except.ok (c, h1)

/-- Source: `func (c *CarBuilder) Build() Car { return c.car }`.  The result is a `Car`
value, not a pointer; the store is returned as it was received. -/
def Build (c : Ptr) (h : Heap) : Except Fault (Car × Heap) :=
  match load c h with
  | Except.error e => Except.error e
  | Except.ok b => Except.ok (b.car, h)

/-- Sequencing of two steps that thread the store: the second step receives the value and
the store the first one returned, and a fault of the first step ends the run. -/
def andThen {α β : Type} (m : Except Fault (α × Heap))
    (k : α → Heap → Except Fault (β × Heap)) : Except Fault (β × Heap) :=
  match m with
  | Except.error e => Except.error e
  | Except.ok (x, h) => k x h

/-- Source: the builder expression of `main`,
`NewCarBuilder().SetBrand("Toyota").SetModel("Corolla").SetYear(2024).SetEngine("2.0L Turbo").SetColor("Azul").Build()`,
every method called on the pointer the previous call returned. -/
def mainCar (h : Heap) : Except Fault (Car × Heap) :=
  andThen (NewCarBuilder h) fun c0 h0 =>
  andThen (SetBrand c0 "Toyota" h0) fun c1 h1 =>
  andThen (SetModel c1 "Corolla" h1) fun c2 h2 =>
  andThen (SetYear c2 2024 h2) fun c3 h3 =>
  andThen (SetEngine c3 "2.0L Turbo" h3) fun c4 h4 =>
  andThen (SetColor c4 "Azul" h4) fun c5 h5 =>
  Build c5 h5

/-- The five fields of a `Car`. -/
inductive Field where
  | brand | model | year | engine | color
deriving DecidableEq, Repr

/-- One setter call with its argument. -/
inductive Call where
  | setBrand (v : String) : Call
  | setModel (v : String) : Call
  | setYear (v : Int) : Call
  | setEngine (v : String) : Call
  | setColor (v : String) : Call
deriving DecidableEq, Repr

/-- The field a setter call targets. -/
def Call.target : Call → Field
  | Call.setBrand _ => Field.brand
  | Call.setModel _ => Field.model
  | Call.setYear _ => Field.year
  | Call.setEngine _ => Field.engine
  | Call.setColor _ => Field.color

/-- The call made on receiver `c`: dispatch to the method of `carBuilder.go`. -/
def Call.run (k : Call) (c : Ptr) (h : Heap) : Except Fault (Ptr × Heap) :=
  match k with
  | Call.setBrand v => SetBrand c v h
  | Call.setModel v => SetModel c v h
  | Call.setYear v => SetYear c v h
  | Call.setEngine v => SetEngine c v h
  | Call.setColor v => SetColor c v h

/-- The fluent chain `c.k1(..).k2(..)...`: each call is made on the pointer the previous
call returned. -/
def chain : List Call → Ptr → Heap → Except Fault (Ptr × Heap)
  | [], c, h => Except.ok (c, h)
  | k :: ks, c, h => andThen (k.run c h) fun c1 h1 => chain ks c1 h1

/-- The statement form `c.k1(..); c.k2(..); ...`: every call is made on `c` itself and the
pointer it returns is dropped. -/
def statements : List Call → Ptr → Heap → Except Fault (Ptr × Heap)
  | [], c, h => Except.ok (c, h)
  | k :: ks, c, h => andThen (k.run c h) fun _ h1 => statements ks c h1

/-- The overwrite a setter call does on the pending car: the right-hand sides of the five
assignments of `carBuilder.go`. -/
def Call.apply (k : Call) (car : Car) : Car :=
  match k with
  | Call.setBrand v => { car with Brand := v }
  | Call.setModel v => { car with Model := v }
  | Call.setYear v => { car with Year := v }
  | Call.setEngine v => { car with Engine := v }
  | Call.setColor v => { car with Color := v }

/-- The overwrites of a sequence of calls, first call first. -/
def applyAll (ks : List Call) (car : Car) : Car :=
  ks.foldl (fun acc k => k.apply acc) car

/-- A field value: a string, or the integer of the year. -/
inductive Value where
  | str (s : String) : Value
  | int (i : Int) : Value
deriving DecidableEq, Repr

/-- The argument a setter call was given. -/
def Call.arg : Call → Value
  | Call.setBrand v => Value.str v
  | Call.setModel v => Value.str v
  | Call.setYear v => Value.int v
  | Call.setEngine v => Value.str v
  | Call.setColor v => Value.str v

/-- The value a car holds in a field. -/
def Car.field (car : Car) : Field → Value
  | Field.brand => Value.str car.Brand
  | Field.model => Value.str car.Model
  | Field.year => Value.int car.Year
  | Field.engine => Value.str car.Engine
  | Field.color => Value.str car.Color

/-- The zero value of a field: the empty string, or 0 for the year. -/
def Field.zeroValue : Field → Value
  | Field.year => Value.int 0
  | _ => Value.str ""

/-- The argument of the last call of the sequence that targets the field, if there is one. -/
def lastValue (F : Field) (ks : List Call) : Option Value :=
  (ks.reverse.find? fun k => decide (k.target = F)).map Call.arg

/-- Source shape `x := c.Build(); y := c.Build()`: two builds on one builder, nothing between. -/
def buildTwice (c : Ptr) (h : Heap) : Except Fault ((Car × Car) × Heap) :=
  andThen (Build c h) fun x h1 =>
  andThen (Build c h1) fun y h2 =>
  Except.ok ((x, y), h2)

/-- Source shape `c.k1(..).k2(..)....Build()`: a fluent chain closed by `Build`. -/
def chainBuild (ks : List Call) (c : Ptr) (h : Heap) : Except Fault (Car × Heap) :=
  andThen (chain ks c h) fun c1 h1 => Build c1 h1

/-- Source shape `c.Build(); c.k1(..).k2(..)....Build()`: a build whose result is dropped,
then a chain on the same builder closed by a second build. -/
def buildThenChainBuild (ks : List Call) (c : Ptr) (h : Heap) : Except Fault (Car × Heap) :=
  andThen (Build c h) fun _ h1 => chainBuild ks c h1

/-- Source shape `x := c.Build(); c.k(..); y := c.Build()`: the caller keeps the car `x` of
the first build across a setter call on the same builder, and builds again; the result is the
pair of `x` as the caller holds it at the end and of the second car `y`. -/
def buildSetBuild (k : Call) (c : Ptr) (h : Heap) : Except Fault ((Car × Car) × Heap) :=
  andThen (Build c h) fun x h1 =>
  andThen (k.run c h1) fun _ h2 =>
  andThen (Build c h2) fun y h3 =>
  Except.ok ((x, y), h3)

/-- Source shape `c.f(v).g(w).Build()`. -/
def chained (f g : Call) (c : Ptr) (h : Heap) : Except Fault (Car × Heap) :=
  andThen (f.run c h) fun c1 h1 =>
  andThen (g.run c1 h1) fun c2 h2 =>
  Build c2 h2

/-- Source shape `c.f(v); c.g(w); c.Build()`. -/
def stepwise (f g : Call) (c : Ptr) (h : Heap) : Except Fault (Car × Heap) :=
  andThen (f.run c h) fun _ h1 =>
  andThen (g.run c h1) fun _ h2 =>
  Build c h2

/-- Source shape `NewCarBuilder().k1(..).k2(..)....Build()`. -/
def freshChainBuild (ks : List Call) (h : Heap) : Except Fault (Car × Heap) :=
  andThen (NewCarBuilder h) fun c h0 => chainBuild ks c h0

/-- The five setter calls that carry the five field values of a car, in the order of the
chain of `main`. -/
def settersOf (car : Car) : List Call :=
  [Call.setBrand car.Brand, Call.setModel car.Model, Call.setYear car.Year,
    Call.setEngine car.Engine, Call.setColor car.Color]

/-- Source shape `c.j1(..).j2(..)....Build(); c.k1(..).k2(..)....Build()`: a builder that was
used for a first chain and build is used again for a second chain and build; the result is
the second car. -/
def reuseChainBuild (js ks : List Call) (c : Ptr) (h : Heap) : Except Fault (Car × Heap) :=
  andThen (chainBuild js c h) fun _ h1 => chainBuild ks c h1

/-! Lemmas on the store -/

theorem load_addr {h : Heap} {a : Nat} {b : CarBuilder} (hb : h[a]? = some b) :
    load (Ptr.addr a) h = Except.ok b := by
  simp [load, hb]

theorem assign_addr {h : Heap} {a : Nat} {b : CarBuilder} (hb : h[a]? = some b)
    (f : Car → Car) :
    assign (Ptr.addr a) f h = Except.ok (h.set a ⟨f b.car⟩) := by
  simp [assign, hb]

theorem run_addr {h : Heap} {a : Nat} {b : CarBuilder} (hb : h[a]? = some b) (k : Call) :
    k.run (Ptr.addr a) h = Except.ok (Ptr.addr a, h.set a ⟨k.apply b.car⟩) := by
  cases k <;>
    simp [Call.run, Call.apply, SetBrand, SetModel, SetYear, SetEngine, SetColor,
      assign_addr hb]

theorem Build_addr {h : Heap} {a : Nat} {b : CarBuilder} (hb : h[a]? = some b) :
    Build (Ptr.addr a) h = Except.ok (b.car, h) := by
  simp [Build, load_addr hb]

theorem getElem?_set_self {h : Heap} {a : Nat} {b : CarBuilder} (hb : h[a]? = some b)
    (b1 : CarBuilder) : (h.set a b1)[a]? = some b1 := by
  have hlt : a < h.length := by
    rcases List.getElem?_eq_some_iff.mp hb with ⟨hlt, _⟩
    exact hlt
  simp [List.getElem?_set_self, hlt]

theorem chain_addr (ks : List Call) :
    ∀ {h : Heap} {a : Nat} {b : CarBuilder}, h[a]? = some b →
      chain ks (Ptr.addr a) h = Except.ok (Ptr.addr a, h.set a ⟨applyAll ks b.car⟩) := by
  induction ks with
  | nil =>
    intro h a b hb
    have hset : h.set a ⟨b.car⟩ = h := by
      apply List.ext_getElem? 
      intro i
      by_cases hi : a = i
      · subst hi
        rw [getElem?_set_self hb, hb]
      · simp [List.getElem?_set, hi]
    simp [chain, applyAll, hset]
  | cons k ks ih =>
    intro h a b hb
    simp [chain, run_addr hb, andThen, ih (getElem?_set_self hb _), applyAll, List.set_set]

theorem statements_addr (ks : List Call) :
    ∀ {h : Heap} {a : Nat} {b : CarBuilder}, h[a]? = some b →
      statements ks (Ptr.addr a) h = chain ks (Ptr.addr a) h := by
  induction ks with
  | nil => intro h a b _; rfl
  | cons k ks ih =>
    intro h a b hb
    simp only [statements, chain, run_addr hb, andThen]
    exact ih (getElem?_set_self hb _)

theorem exists_of_Live {h : Heap} {c : Ptr} (hl : Live h c) :
    ∃ a b, c = Ptr.addr a ∧ h[a]? = some b := by
  cases c with
  | null => exact absurd hl (by simp [Live])
  | addr a =>
    have hlt : a < h.length := hl
    exact ⟨a, h[a], rfl, List.getElem?_eq_getElem hlt⟩

theorem chainBuild_addr (ks : List Call) {h : Heap} {a : Nat} {b : CarBuilder}
    (hb : h[a]? = some b) :
    chainBuild ks (Ptr.addr a) h
      = Except.ok (applyAll ks b.car, h.set a ⟨applyAll ks b.car⟩) := by
  simp [chainBuild, chain_addr ks hb, andThen, Build_addr (getElem?_set_self hb _)]

theorem chainBuild_nil (c : Ptr) (h : Heap) : chainBuild [] c h = Build c h := rfl

theorem chainBuild_cons (k : Call) (ks : List Call) (c : Ptr) (h : Heap) :
    chainBuild (k :: ks) c h = andThen (k.run c h) fun c1 h1 => chainBuild ks c1 h1 := by
  unfold chainBuild
  simp only [chain]
  cases k.run c h <;> rfl

theorem NewCarBuilder_get (h : Heap) :
    (h ++ [CarBuilder.zero])[h.length]? = some CarBuilder.zero := by
  simp

/-! Lemmas on the overwrites -/

theorem apply_field_target (k : Call) (car : Car) :
    (k.apply car).field k.target = k.arg := by
  cases k <;> rfl

theorem apply_field_other (k : Call) (car : Car) {F : Field} (hF : k.target ≠ F) :
    (k.apply car).field F = car.field F := by
  cases k <;> cases F <;> first | rfl | exact absurd rfl hF

theorem Car.eq_of_field {c1 c2 : Car} (hf : ∀ F, c1.field F = c2.field F) : c1 = c2 := by
  cases c1
  cases c2
  have h1 := hf Field.brand
  have h2 := hf Field.model
  have h3 := hf Field.year
  have h4 := hf Field.engine
  have h5 := hf Field.color
  simp only [Car.field, Value.str.injEq, Value.int.injEq] at h1 h2 h3 h4 h5
  simp [h1, h2, h3, h4, h5]

theorem applyAll_append (ks : List Call) (k : Call) (car : Car) :
    applyAll (ks ++ [k]) car = k.apply (applyAll ks car) := by
  simp [applyAll, List.foldl_append]

theorem lastValue_append_hit (ks : List Call) (k : Call) :
    lastValue k.target (ks ++ [k]) = some k.arg := by
  simp [lastValue]

theorem lastValue_append_miss (ks : List Call) (k : Call) {F : Field} (hF : k.target ≠ F) :
    lastValue F (ks ++ [k]) = lastValue F ks := by
  simp [lastValue, List.find?, hF]

theorem field_applyAll (F : Field) (ks : List Call) (car : Car) :
    (applyAll ks car).field F = (lastValue F ks).getD (car.field F) := by
  induction ks using List.reverseRecOn with
  | nil => simp [applyAll, lastValue]
  | append_singleton ks k ih =>
    rw [applyAll_append]
    by_cases hF : k.target = F
    · subst hF
      rw [apply_field_target, lastValue_append_hit]
      rfl
    · rw [apply_field_other k _ hF, lastValue_append_miss ks k hF, ih]

theorem lastValue_of_split {ks pre post : List Call} {k : Call}
    (hks : ks = pre ++ k :: post) (hpost : ∀ k1 ∈ post, k1.target ≠ k.target) :
    lastValue k.target ks = some k.arg := by
  subst hks
  induction post using List.reverseRecOn with
  | nil => exact lastValue_append_hit pre k
  | append_singleton post k1 ih =>
    have hk1 : k1.target ≠ k.target := hpost k1 (by simp)
    have hrest : ∀ k2 ∈ post, k2.target ≠ k.target := fun k2 h2 =>
      hpost k2 (by simp [h2])
    have hassoc : pre ++ k :: (post ++ [k1]) = (pre ++ k :: post) ++ [k1] := by simp
    rw [hassoc, lastValue_append_miss _ k1 hk1]
    exact ih hrest

theorem lastValue_of_untouched {ks : List Call} {F : Field}
    (hks : ∀ k ∈ ks, k.target ≠ F) : lastValue F ks = none := by
  induction ks using List.reverseRecOn with
  | nil => rfl
  | append_singleton ks k ih =>
    rw [lastValue_append_miss ks k (hks k (by simp))]
    exact ih fun k1 h1 => hks k1 (by simp [h1])

theorem zero_field (F : Field) : Car.zero.field F = F.zeroValue := by
  cases F <;> rfl

theorem freshChainBuild_eq (ks : List Call) (h : Heap) :
    freshChainBuild ks h
      = Except.ok (applyAll ks Car.zero,
          (h ++ [CarBuilder.zero]).set h.length ⟨applyAll ks Car.zero⟩) := by
  simp only [freshChainBuild, NewCarBuilder, andThen]
  rw [chainBuild_addr ks (NewCarBuilder_get h)]
  rfl

theorem apply_comm {k1 k2 : Call} (hne : k1.target ≠ k2.target) (car : Car) :
    k2.apply (k1.apply car) = k1.apply (k2.apply car) := by
  cases k1 <;> cases k2 <;> first | rfl | exact absurd rfl hne

theorem apply_overwrite {k1 k2 : Call} (hsame : k1.target = k2.target) (car : Car) :
    k2.apply (k1.apply car) = k2.apply car := by
  cases k1 <;> cases k2 <;> first | rfl | exact absurd hsame (by simp [Call.target])

theorem applyAll_agree {ks1 ks2 : List Call}
    (hagree : ∀ F, lastValue F ks1 = lastValue F ks2) (car : Car) :
    applyAll ks1 car = applyAll ks2 car := by
  apply Car.eq_of_field
  intro F
  rw [field_applyAll, field_applyAll, hagree F]

theorem runBuild_addr {h : Heap} {a : Nat} {b : CarBuilder} (hb : h[a]? = some b) (k : Call) :
    andThen (k.run (Ptr.addr a) h) Build
      = Except.ok (k.apply b.car, h.set a ⟨k.apply b.car⟩) := by
  simp [run_addr hb, andThen, Build_addr (getElem?_set_self hb _)]

theorem Call.eq_of_target_arg {k1 k2 : Call} (ht : k1.target = k2.target)
    (ha : k1.arg = k2.arg) : k1 = k2 := by
  cases k1 <;> cases k2 <;> simp_all [Call.target, Call.arg]

theorem lastValue_of_cover {ks : List Call} {car : Car} {F : Field}
    (hall : ∀ k ∈ ks, k.arg = car.field k.target) (hF : ∃ k ∈ ks, k.target = F) :
    lastValue F ks = some (car.field F) := by
  unfold lastValue
  cases hfind : ks.reverse.find? (fun k => decide (k.target = F)) with
  | none =>
    obtain ⟨k, hk, hkF⟩ := hF
    have hnone := List.find?_eq_none.mp hfind k (List.mem_reverse.mpr hk)
    simp [hkF] at hnone
  | some k =>
    have hmem : k ∈ ks := List.mem_reverse.mp (List.mem_of_find?_eq_some hfind)
    have hkF : k.target = F := by simpa using List.find?_some hfind
    simp [hall k hmem, hkF]

theorem applyAll_of_cover {ks : List Call} {car : Car}
    (hall : ∀ k ∈ ks, k.arg = car.field k.target) (hcover : ∀ F, ∃ k ∈ ks, k.target = F)
    (car0 : Car) : applyAll ks car0 = car := by
  apply Car.eq_of_field
  intro F
  rw [field_applyAll, lastValue_of_cover hall (hcover F)]
  rfl

theorem settersOf_arg (car : Car) : ∀ k ∈ settersOf car, k.arg = car.field k.target := by
  intro k hk
  simp only [settersOf, List.mem_cons, List.mem_singleton, List.not_mem_nil, or_false] at hk
  rcases hk with rfl | rfl | rfl | rfl | rfl <;> rfl

theorem settersOf_cover (car : Car) : ∀ F, ∃ k ∈ settersOf car, k.target = F := by
  intro F
  cases F
  · exact ⟨Call.setBrand car.Brand, by simp [settersOf], rfl⟩
  · exact ⟨Call.setModel car.Model, by simp [settersOf], rfl⟩
  · exact ⟨Call.setYear car.Year, by simp [settersOf], rfl⟩
  · exact ⟨Call.setEngine car.Engine, by simp [settersOf], rfl⟩
  · exact ⟨Call.setColor car.Color, by simp [settersOf], rfl⟩

theorem applyAll_perm_settersOf {ks : List Call} {car : Car}
    (hperm : ks.Perm (settersOf car)) (car0 : Car) : applyAll ks car0 = car := by
  apply applyAll_of_cover
  · intro k hk
    exact settersOf_arg car k (hperm.mem_iff.mp hk)
  · intro F
    obtain ⟨k, hk, hkF⟩ := settersOf_cover car F
    exact ⟨k, hperm.mem_iff.mpr hk, hkF⟩

/-! The claims -/

/-- C1. Last write wins: whatever the store, for every finite sequence of setter calls chained
on a builder from `NewCarBuilder`, the closing `Build` returns a car, and in that car the
field a call of the sequence targets holds that call's argument when no later call of the
sequence targets the same field, and a field no call of the sequence targets holds its zero
value (the empty string, or 0 for the year). -/
theorem C1_last_write_wins (h : Heap) (ks : List Call) :
    ∃ car h1, freshChainBuild ks h = Except.ok (car, h1) ∧
      (∀ pre k post, ks = pre ++ k :: post →
        (∀ k1 ∈ post, k1.target ≠ k.target) → car.field k.target = k.arg) ∧
      (∀ F, (∀ k ∈ ks, k.target ≠ F) → car.field F = F.zeroValue) := by
  refine ⟨_, _, freshChainBuild_eq ks h, ?_, ?_⟩
  · intro pre k post hks hpost
    rw [field_applyAll, lastValue_of_split hks hpost]
    rfl
  · intro F hF
    rw [field_applyAll, lastValue_of_untouched hF, zero_field]
    rfl

/-- C1, at the sequence `SetYear(2020).SetBrand("A").SetYear(2024)` on a fresh builder of the
empty store: the built year is 2024, the brand is "A" and the untouched model is empty. -/
theorem C1_last_write_wins_witness :
    ∃ car h1,
      freshChainBuild [Call.setYear 2020, Call.setBrand "A", Call.setYear 2024] []
        = Except.ok (car, h1) ∧
      car.field Field.year = Value.int 2024 ∧ car.field Field.brand = Value.str "A" ∧
      car.field Field.model = Value.str "" := by
  obtain ⟨car, h1, hrun, hlast, hzero⟩ :=
    C1_last_write_wins [] [Call.setYear 2020, Call.setBrand "A", Call.setYear 2024]
  refine ⟨car, h1, hrun, ?_, ?_, ?_⟩
  · exact hlast [Call.setYear 2020, Call.setBrand "A"] (Call.setYear 2024) [] rfl (by simp)
  · exact hlast [Call.setYear 2020] (Call.setBrand "A") [Call.setYear 2024] rfl
      (by simp [Call.target])
  · exact hzero Field.model (by simp [Call.target])

/-- C2. `Build` on a builder freshly returned by `NewCarBuilder`, no setter applied, returns
the car whose brand, model, engine and color are the empty string and whose year is 0,
whatever the store the builder was allocated in. -/
theorem C2_fresh_build_is_zero (h : Heap) :
    ∃ h1, andThen (NewCarBuilder h) Build
        = Except.ok (({ Brand := "", Model := "", Year := 0, Engine := "", Color := "" } : Car), h1) := by
  refine ⟨h ++ [CarBuilder.zero], ?_⟩
  simp only [NewCarBuilder, andThen]
  rw [Build_addr (NewCarBuilder_get h)]
  rfl

/-- C3. The builder expression of `main` returns exactly the car with brand "Toyota", model
"Corolla", year 2024, engine "2.0L Turbo" and color "Azul", whatever the store it starts
from. -/
theorem C3_main_scenario (h : Heap) :
    ∃ h1, mainCar h
        = Except.ok
          (({ Brand := "Toyota", Model := "Corolla", Year := 2024, Engine := "2.0L Turbo", Color := "Azul" } : Car),
            h1) := by
  have hrun : mainCar h
      = freshChainBuild [Call.setBrand "Toyota", Call.setModel "Corolla", Call.setYear 2024,
          Call.setEngine "2.0L Turbo", Call.setColor "Azul"] h := by
    simp only [freshChainBuild, chainBuild_cons, chainBuild_nil, Call.run]
    rfl
  rw [hrun, freshChainBuild_eq]
  exact ⟨_, rfl⟩

/-- C4. Setters on different fields commute: on every allocated builder, in every state of it,
two setter calls that target two distinct fields leave the same store in either order, and
the closing `Build` returns the same car for both orders.  More generally two chains of setter
calls whose last argument per field agree leave the same store and build the same car. -/
theorem C4_distinct_setters_commute (h : Heap) (c : Ptr) (hl : Live h c) :
    (∀ k1 k2 : Call, k1.target ≠ k2.target →
      ∃ c1 h1 car, chain [k1, k2] c h = Except.ok (c1, h1) ∧
        chain [k2, k1] c h = Except.ok (c1, h1) ∧
        chainBuild [k1, k2] c h = Except.ok (car, h1) ∧
        chainBuild [k2, k1] c h = Except.ok (car, h1)) ∧
    (∀ ks1 ks2 : List Call, (∀ F, lastValue F ks1 = lastValue F ks2) →
      ∃ car h1, chainBuild ks1 c h = Except.ok (car, h1) ∧
        chainBuild ks2 c h = Except.ok (car, h1)) := by
  obtain ⟨a, b, rfl, hb⟩ := exists_of_Live hl
  constructor
  · intro k1 k2 hne
    have happ : applyAll [k2, k1] b.car = applyAll [k1, k2] b.car :=
      (apply_comm hne b.car).symm
    refine ⟨_, _, _, chain_addr [k1, k2] hb, ?_, chainBuild_addr [k1, k2] hb, ?_⟩
    · rw [chain_addr [k2, k1] hb, happ]
    · rw [chainBuild_addr [k2, k1] hb, happ]
  · intro ks1 ks2 hagree
    refine ⟨_, _, chainBuild_addr ks1 hb, ?_⟩
    rw [chainBuild_addr ks2 hb, applyAll_agree hagree]

/-- C4, on the one builder of a one-cell store: `SetBrand("A").SetModel("B")` and
`SetModel("B").SetBrand("A")` leave the same store and build the same car. -/
theorem C4_distinct_setters_commute_witness :
    Live [CarBuilder.zero] (Ptr.addr 0) ∧ (Call.setBrand "A").target ≠ (Call.setModel "B").target ∧
      ∃ c1 h1 car,
        chain [Call.setBrand "A", Call.setModel "B"] (Ptr.addr 0) [CarBuilder.zero]
          = Except.ok (c1, h1) ∧
        chain [Call.setModel "B", Call.setBrand "A"] (Ptr.addr 0) [CarBuilder.zero]
          = Except.ok (c1, h1) ∧
        chainBuild [Call.setBrand "A", Call.setModel "B"] (Ptr.addr 0) [CarBuilder.zero]
          = Except.ok (car, h1) ∧
        chainBuild [Call.setModel "B", Call.setBrand "A"] (Ptr.addr 0) [CarBuilder.zero]
          = Except.ok (car, h1) :=
  ⟨by decide, by decide,
    (C4_distinct_setters_commute [CarBuilder.zero] (Ptr.addr 0) (by decide)).1
      (Call.setBrand "A") (Call.setModel "B") (by decide)⟩

/-- C5. Overwrite and idempotence per field: on every allocated builder, in every state of it,
a setter called with `v1` and then with `v2` leaves the store the same setter called with `v2`
alone leaves; in particular a call made twice leaves the store the call made once leaves; and
`SetYear(2020).SetYear(2024).Build()` returns a car of year 2024. -/
theorem C5_overwrite_idempotent (h : Heap) (c : Ptr) (hl : Live h c) :
    (∀ k1 k2 : Call, k1.target = k2.target →
      ∃ c1 h1, chain [k1, k2] c h = Except.ok (c1, h1) ∧ chain [k2] c h = Except.ok (c1, h1)) ∧
    (∀ k : Call,
      ∃ c1 h1, chain [k, k] c h = Except.ok (c1, h1) ∧ chain [k] c h = Except.ok (c1, h1)) ∧
    (∃ car h1, chainBuild [Call.setYear 2020, Call.setYear 2024] c h = Except.ok (car, h1) ∧
      car.Year = 2024) := by
  obtain ⟨a, b, rfl, hb⟩ := exists_of_Live hl
  have hover : ∀ k1 k2 : Call, k1.target = k2.target →
      ∃ c1 h1, chain [k1, k2] (Ptr.addr a) h = Except.ok (c1, h1) ∧
        chain [k2] (Ptr.addr a) h = Except.ok (c1, h1) := by
    intro k1 k2 hsame
    have happ : applyAll [k1, k2] b.car = applyAll [k2] b.car := apply_overwrite hsame b.car
    refine ⟨_, _, chain_addr [k1, k2] hb, ?_⟩
    rw [chain_addr [k2] hb, happ]
  exact ⟨hover, fun k => hover k k rfl,
    ⟨_, _, chainBuild_addr [Call.setYear 2020, Call.setYear 2024] hb, rfl⟩⟩

/-- C5, on the one builder of a one-cell store: `SetYear(2020).SetYear(2024)` leaves the store
`SetYear(2024)` leaves. -/
theorem C5_overwrite_idempotent_witness :
    Live [CarBuilder.zero] (Ptr.addr 0) ∧
      ∃ c1 h1,
        chain [Call.setYear 2020, Call.setYear 2024] (Ptr.addr 0) [CarBuilder.zero]
          = Except.ok (c1, h1) ∧
        chain [Call.setYear 2024] (Ptr.addr 0) [CarBuilder.zero] = Except.ok (c1, h1) :=
  ⟨by decide,
    (C5_overwrite_idempotent [CarBuilder.zero] (Ptr.addr 0) (by decide)).1
      (Call.setYear 2020) (Call.setYear 2024) rfl⟩

/-- C6. Two builds on the same allocated builder with no setter call in between return two
equal cars, in every state of the builder; and so they do on the builder a chain of setter
calls returned. -/
theorem C6_build_twice_equal (h : Heap) (c : Ptr) (hl : Live h c) :
    (∃ car, buildTwice c h = Except.ok ((car, car), h)) ∧
    (∀ ks : List Call, ∃ c1 h1 car, chain ks c h = Except.ok (c1, h1) ∧
      buildTwice c1 h1 = Except.ok ((car, car), h1)) := by
  obtain ⟨a, b, rfl, hb⟩ := exists_of_Live hl
  have htwice : ∀ {h0 : Heap} {b0 : CarBuilder}, h0[a]? = some b0 →
      buildTwice (Ptr.addr a) h0 = Except.ok ((b0.car, b0.car), h0) := by
    intro h0 b0 hb0
    simp [buildTwice, Build_addr hb0, andThen]
  exact ⟨⟨_, htwice hb⟩,
    fun ks => ⟨_, _, _, chain_addr ks hb, htwice (getElem?_set_self hb _)⟩⟩

/-- C6, on a builder whose pending car has brand "A": both builds return that car. -/
theorem C6_build_twice_equal_witness :
    Live [⟨⟨"A", "", 0, "", ""⟩⟩] (Ptr.addr 0) ∧
      ∃ car, buildTwice (Ptr.addr 0) [⟨⟨"A", "", 0, "", ""⟩⟩]
        = Except.ok ((car, car), [⟨⟨"A", "", 0, "", ""⟩⟩]) :=
  ⟨by decide, (C6_build_twice_equal [⟨⟨"A", "", 0, "", ""⟩⟩] (Ptr.addr 0) (by decide)).1⟩

/-- C7. `Build` has no effect on the builder: on every allocated builder, in every state of
it, `Build` returns the pending car and the store it received, unchanged; and for every later
chain of setter calls, the car built at the end and the final store are the ones obtained
without the intermediate `Build`. -/
theorem C7_build_keeps_builder (h : Heap) (c : Ptr) (hl : Live h c) :
    (∃ b, load c h = Except.ok b ∧ Build c h = Except.ok (b.car, h)) ∧
    (∀ ks : List Call, ∃ car h1, buildThenChainBuild ks c h = Except.ok (car, h1) ∧
      chainBuild ks c h = Except.ok (car, h1)) := by
  obtain ⟨a, b, rfl, hb⟩ := exists_of_Live hl
  refine ⟨⟨b, load_addr hb, Build_addr hb⟩, fun ks => ⟨_, _, ?_, chainBuild_addr ks hb⟩⟩
  simp [buildThenChainBuild, Build_addr hb, andThen, chainBuild_addr ks hb]

/-- C7, on a builder whose pending car has brand "A": the build returns the store as it
was. -/
theorem C7_build_keeps_builder_witness :
    Live [⟨⟨"A", "", 0, "", ""⟩⟩] (Ptr.addr 0) ∧
      ∃ b, load (Ptr.addr 0) [⟨⟨"A", "", 0, "", ""⟩⟩] = Except.ok b ∧
        Build (Ptr.addr 0) [⟨⟨"A", "", 0, "", ""⟩⟩]
          = Except.ok (b.car, [⟨⟨"A", "", 0, "", ""⟩⟩]) :=
  ⟨by decide, (C7_build_keeps_builder [⟨⟨"A", "", 0, "", ""⟩⟩] (Ptr.addr 0) (by decide)).1⟩

/-- C8. `Build` returns a copy: on every allocated builder, in every state of it, when the
caller keeps the car of a build across a setter call on the same builder, the car it holds
afterwards is still the pending car of the moment of the build, field for field; the build
made after the setter returns the setter's argument in the targeted field and the kept
car's values in the other four. -/
theorem C8_build_returns_copy (h : Heap) (c : Ptr) (hl : Live h c) (k : Call) :
    ∃ b x y h1, load c h = Except.ok b ∧ Build c h = Except.ok (x, h) ∧
      buildSetBuild k c h = Except.ok ((x, y), h1) ∧
      (∀ F, x.field F = b.car.field F) ∧
      y.field k.target = k.arg ∧
      (∀ F, k.target ≠ F → y.field F = x.field F) := by
  obtain ⟨a, b, rfl, hb⟩ := exists_of_Live hl
  refine ⟨b, b.car, k.apply b.car, h.set a ⟨k.apply b.car⟩, load_addr hb, Build_addr hb, ?_,
    fun _ => rfl, apply_field_target k b.car, fun F hF => apply_field_other k b.car hF⟩
  simp [buildSetBuild, Build_addr hb, andThen, run_addr hb,
    Build_addr (getElem?_set_self hb _)]

/-- C8, on a builder whose pending car has brand "A", with `SetBrand("B")` after the build:
the kept car still has brand "A", the second build returns brand "B". -/
theorem C8_build_returns_copy_witness :
    Live [⟨⟨"A", "", 0, "", ""⟩⟩] (Ptr.addr 0) ∧
      ∃ x y h1, buildSetBuild (Call.setBrand "B") (Ptr.addr 0) [⟨⟨"A", "", 0, "", ""⟩⟩]
          = Except.ok ((x, y), h1) ∧
        x.Brand = "A" ∧ y.Brand = "B" := by
  obtain ⟨b, x, y, h1, hload, _, hrun, hx, hy, _⟩ :=
    C8_build_returns_copy [⟨⟨"A", "", 0, "", ""⟩⟩] (Ptr.addr 0) (by decide) (Call.setBrand "B")
  have hb : b = ⟨⟨"A", "", 0, "", ""⟩⟩ := by
    have hl0 : load (Ptr.addr 0) [⟨⟨"A", "", 0, "", ""⟩⟩]
        = Except.ok (⟨⟨"A", "", 0, "", ""⟩⟩ : CarBuilder) := rfl
    rw [hl0] at hload
    exact (Except.ok.inj hload).symm
  have hxA := hx Field.brand
  rw [hb] at hxA
  simp only [Car.field, Value.str.injEq] at hxA
  simp only [Car.field, Call.target, Call.arg, Value.str.injEq] at hy
  exact ⟨by decide, x, y, h1, hrun, hxA, hy⟩

/-- C9. Every setter returns the builder it was called on: on every allocated builder, in
every state of it, a setter call returns the very pointer it received, and the builder at
that pointer then holds the argument in the targeted field and its former values in the
other fields; the chained form `c.f(v).g(w).Build()` and the statement form
`c.f(v); c.g(w); c.Build()` return the same car and the same store, in which `c` holds the
car that was built; and a fluent chain of any length is the same run as its statement form
and returns `c`. -/
theorem C9_setter_returns_receiver (h : Heap) (c : Ptr) (hl : Live h c) :
    (∀ k : Call, ∃ h1 b b1, k.run c h = Except.ok (c, h1) ∧
      load c h = Except.ok b ∧ load c h1 = Except.ok b1 ∧
      b1.car.field k.target = k.arg ∧
      (∀ F, k.target ≠ F → b1.car.field F = b.car.field F)) ∧
    (∀ f g : Call, ∃ car h1, chained f g c h = Except.ok (car, h1) ∧
      stepwise f g c h = Except.ok (car, h1) ∧ load c h1 = Except.ok ⟨car⟩) ∧
    (∀ ks : List Call, ∃ h1, chain ks c h = Except.ok (c, h1) ∧
      statements ks c h = Except.ok (c, h1)) := by
  obtain ⟨a, b, rfl, hb⟩ := exists_of_Live hl
  refine ⟨?_, ?_, ?_⟩
  · intro k
    exact ⟨_, b, _, run_addr hb k, load_addr hb, load_addr (getElem?_set_self hb _),
      apply_field_target k b.car, fun F hF => apply_field_other k b.car hF⟩
  · intro f g
    have h1 := getElem?_set_self hb (⟨f.apply b.car⟩ : CarBuilder)
    have h2 := getElem?_set_self h1 (⟨g.apply (f.apply b.car)⟩ : CarBuilder)
    refine ⟨g.apply (f.apply b.car), (h.set a ⟨f.apply b.car⟩).set a ⟨g.apply (f.apply b.car)⟩,
      ?_, ?_, load_addr h2⟩
    · simp only [chained, run_addr hb, andThen, run_addr h1, Build_addr h2]
    · simp only [stepwise, run_addr hb, andThen, run_addr h1, Build_addr h2]
  · intro ks
    refine ⟨_, chain_addr ks hb, ?_⟩
    rw [statements_addr ks hb, chain_addr ks hb]

/-- C9, on the one builder of a one-cell store: `SetBrand("A")` returns the pointer it was
called on. -/
theorem C9_setter_returns_receiver_witness :
    Live [CarBuilder.zero] (Ptr.addr 0) ∧
      ∃ h1 b b1, (Call.setBrand "A").run (Ptr.addr 0) [CarBuilder.zero]
          = Except.ok (Ptr.addr 0, h1) ∧
        load (Ptr.addr 0) [CarBuilder.zero] = Except.ok b ∧
        load (Ptr.addr 0) h1 = Except.ok b1 ∧
        b1.car.field (Call.setBrand "A").target = (Call.setBrand "A").arg ∧
        (∀ F, (Call.setBrand "A").target ≠ F → b1.car.field F = b.car.field F) :=
  ⟨by decide,
    (C9_setter_returns_receiver [CarBuilder.zero] (Ptr.addr 0) (by decide)).1
      (Call.setBrand "A")⟩

/-- C10, as stated, fails: `nil` is a value of the receiver type `*CarBuilder`, and on the
`nil` receiver every setter and `Build` stop with the nil-dereference panic, whatever builders
the store holds. -/
theorem C10_nil_receiver_panics :
    SetBrand Ptr.null "Toyota" [CarBuilder.zero] = Except.error Fault.nilDereference ∧
    SetModel Ptr.null "Corolla" [CarBuilder.zero] = Except.error Fault.nilDereference ∧
    SetYear Ptr.null 2024 [CarBuilder.zero] = Except.error Fault.nilDereference ∧
    SetEngine Ptr.null "2.0L Turbo" [CarBuilder.zero] = Except.error Fault.nilDereference ∧
    SetColor Ptr.null "Azul" [CarBuilder.zero] = Except.error Fault.nilDereference ∧
    Build Ptr.null [CarBuilder.zero] = Except.error Fault.nilDereference :=
  ⟨rfl, rfl, rfl, rfl, rfl, rfl⟩

/-- C10, amended. On every receiver that points to an allocated builder, for every string and
every integer year, each of `SetBrand`, `SetModel`, `SetYear`, `SetEngine`, `SetColor` and
`Build` completes and returns a result: the setters return the receiver and a store, `Build`
returns a car and the store it received. -/
theorem C10_total_on_live_receiver (h : Heap) (c : Ptr) (hl : Live h c) (s : String)
    (y : Int) :
    (∃ h1, SetBrand c s h = Except.ok (c, h1)) ∧
    (∃ h1, SetModel c s h = Except.ok (c, h1)) ∧
    (∃ h1, SetYear c y h = Except.ok (c, h1)) ∧
    (∃ h1, SetEngine c s h = Except.ok (c, h1)) ∧
    (∃ h1, SetColor c s h = Except.ok (c, h1)) ∧
    (∃ car, Build c h = Except.ok (car, h)) := by
  obtain ⟨a, b, rfl, hb⟩ := exists_of_Live hl
  exact ⟨⟨_, run_addr hb (Call.setBrand s)⟩, ⟨_, run_addr hb (Call.setModel s)⟩,
    ⟨_, run_addr hb (Call.setYear y)⟩, ⟨_, run_addr hb (Call.setEngine s)⟩,
    ⟨_, run_addr hb (Call.setColor s)⟩, ⟨_, Build_addr hb⟩⟩

/-- C10 amended, on the one builder of a one-cell store, with the empty string and the year
-1. -/
theorem C10_total_on_live_receiver_witness :
    Live [CarBuilder.zero] (Ptr.addr 0) ∧
      (∃ h1, SetBrand (Ptr.addr 0) "" [CarBuilder.zero] = Except.ok (Ptr.addr 0, h1)) ∧
      (∃ h1, SetModel (Ptr.addr 0) "" [CarBuilder.zero] = Except.ok (Ptr.addr 0, h1)) ∧
      (∃ h1, SetYear (Ptr.addr 0) (-1) [CarBuilder.zero] = Except.ok (Ptr.addr 0, h1)) ∧
      (∃ h1, SetEngine (Ptr.addr 0) "" [CarBuilder.zero] = Except.ok (Ptr.addr 0, h1)) ∧
      (∃ h1, SetColor (Ptr.addr 0) "" [CarBuilder.zero] = Except.ok (Ptr.addr 0, h1)) ∧
      (∃ car, Build (Ptr.addr 0) [CarBuilder.zero] = Except.ok (car, [CarBuilder.zero])) :=
  ⟨by decide, C10_total_on_live_receiver [CarBuilder.zero] (Ptr.addr 0) (by decide) "" (-1)⟩

/-- C11. No validation, values are stored verbatim: on every allocated builder, in every state
of it, `Build` right after a setter called with `v` returns a car whose targeted field is
exactly `v`, for every string and every integer; `SetBrand("")` after `SetBrand("A")` builds
the empty brand, and `SetYear(-1)` builds the year -1. -/
theorem C11_values_stored_verbatim (h : Heap) (c : Ptr) (hl : Live h c) :
    (∀ v : String, ∃ car h1, andThen (SetBrand c v h) Build = Except.ok (car, h1) ∧
      car.Brand = v) ∧
    (∀ v : String, ∃ car h1, andThen (SetModel c v h) Build = Except.ok (car, h1) ∧
      car.Model = v) ∧
    (∀ v : Int, ∃ car h1, andThen (SetYear c v h) Build = Except.ok (car, h1) ∧
      car.Year = v) ∧
    (∀ v : String, ∃ car h1, andThen (SetEngine c v h) Build = Except.ok (car, h1) ∧
      car.Engine = v) ∧
    (∀ v : String, ∃ car h1, andThen (SetColor c v h) Build = Except.ok (car, h1) ∧
      car.Color = v) ∧
    (∃ car h1, andThen (SetBrand c "A" h) (fun c1 h1 => andThen (SetBrand c1 "" h1) Build)
        = Except.ok (car, h1) ∧ car.Brand = "") ∧
    (∃ car h1, andThen (SetYear c (-1) h) Build = Except.ok (car, h1) ∧ car.Year = -1) := by
  obtain ⟨a, b, rfl, hb⟩ := exists_of_Live hl
  refine ⟨fun v => ⟨_, _, runBuild_addr hb (Call.setBrand v), rfl⟩,
    fun v => ⟨_, _, runBuild_addr hb (Call.setModel v), rfl⟩,
    fun v => ⟨_, _, runBuild_addr hb (Call.setYear v), rfl⟩,
    fun v => ⟨_, _, runBuild_addr hb (Call.setEngine v), rfl⟩,
    fun v => ⟨_, _, runBuild_addr hb (Call.setColor v), rfl⟩, ?_,
    ⟨_, _, runBuild_addr hb (Call.setYear (-1)), rfl⟩⟩
  have hA : SetBrand (Ptr.addr a) "A" h = _ := run_addr hb (Call.setBrand "A")
  rw [hA]
  exact ⟨_, _, runBuild_addr (getElem?_set_self hb _) (Call.setBrand ""), rfl⟩

/-- C11, on a builder whose pending car has year 2024, with the least and the greatest
64-bit integers: the built year is the argument. -/
theorem C11_values_stored_verbatim_witness :
    Live [⟨⟨"A", "", 2024, "", ""⟩⟩] (Ptr.addr 0) ∧
      (∃ car h1, andThen (SetYear (Ptr.addr 0) (-9223372036854775808)
          [⟨⟨"A", "", 2024, "", ""⟩⟩]) Build = Except.ok (car, h1) ∧
        car.Year = -9223372036854775808) ∧
      (∃ car h1, andThen (SetYear (Ptr.addr 0) 9223372036854775807
          [⟨⟨"A", "", 2024, "", ""⟩⟩]) Build = Except.ok (car, h1) ∧
        car.Year = 9223372036854775807) :=
  ⟨by decide,
    (C11_values_stored_verbatim [⟨⟨"A", "", 2024, "", ""⟩⟩] (Ptr.addr 0) (by decide)).2.2.1
      (-9223372036854775808),
    (C11_values_stored_verbatim [⟨⟨"A", "", 2024, "", ""⟩⟩] (Ptr.addr 0) (by decide)).2.2.1
      9223372036854775807⟩

/-- C12, as stated, fails: `SetBrand("A")` and `SetBrand("B")` on the one builder of a one-cell
store do not commute; the chain that ends with `SetBrand("B")` builds brand "B", the chain
that ends with `SetBrand("A")` builds brand "A". -/
theorem C12_same_field_setters_do_not_commute :
    chain [Call.setBrand "A", Call.setBrand "B"] (Ptr.addr 0) [CarBuilder.zero]
      ≠ chain [Call.setBrand "B", Call.setBrand "A"] (Ptr.addr 0) [CarBuilder.zero] ∧
    chainBuild [Call.setBrand "A", Call.setBrand "B"] (Ptr.addr 0) [CarBuilder.zero]
      = Except.ok (⟨"B", "", 0, "", ""⟩, [⟨⟨"B", "", 0, "", ""⟩⟩]) ∧
    chainBuild [Call.setBrand "B", Call.setBrand "A"] (Ptr.addr 0) [CarBuilder.zero]
      = Except.ok (⟨"A", "", 0, "", ""⟩, [⟨⟨"A", "", 0, "", ""⟩⟩]) := by
  refine ⟨?_, rfl, rfl⟩
  intro heq
  have h1 : chain [Call.setBrand "A", Call.setBrand "B"] (Ptr.addr 0) [CarBuilder.zero]
      = Except.ok (Ptr.addr 0, [⟨⟨"B", "", 0, "", ""⟩⟩]) := rfl
  have h2 : chain [Call.setBrand "B", Call.setBrand "A"] (Ptr.addr 0) [CarBuilder.zero]
      = Except.ok (Ptr.addr 0, [⟨⟨"A", "", 0, "", ""⟩⟩]) := rfl
  rw [h1, h2] at heq
  have hcell := (Prod.mk.inj (Except.ok.inj heq)).2
  simp at hcell

/-- C12, amended.  On every allocated builder, in every state of it, two setter calls made in
either order both complete, and they leave the same store exactly when they target different
fields or are the same call (same setter, same argument). -/
theorem C12_setters_commute_iff (h : Heap) (c : Ptr) (hl : Live h c) (k1 k2 : Call) :
    (∃ c1 h1, chain [k1, k2] c h = Except.ok (c1, h1)) ∧
    (∃ c2 h2, chain [k2, k1] c h = Except.ok (c2, h2)) ∧
    (chain [k1, k2] c h = chain [k2, k1] c h ↔ (k1.target ≠ k2.target ∨ k1 = k2)) := by
  obtain ⟨a, b, rfl, hb⟩ := exists_of_Live hl
  refine ⟨⟨_, _, chain_addr [k1, k2] hb⟩, ⟨_, _, chain_addr [k2, k1] hb⟩, ?_⟩
  rw [chain_addr [k1, k2] hb, chain_addr [k2, k1] hb]
  constructor
  · intro heq
    by_cases ht : k1.target = k2.target
    · right
      have hstore := (Prod.mk.inj (Except.ok.inj heq)).2
      have hcell := congrArg (fun l : Heap => l[a]?) hstore
      simp only [getElem?_set_self hb] at hcell
      have hcar : applyAll [k1, k2] b.car = applyAll [k2, k1] b.car :=
        congrArg CarBuilder.car (Option.some.inj hcell)
      have hfield := congrArg (fun x : Car => x.field k2.target) hcar
      have hl2 : (applyAll [k1, k2] b.car).field k2.target = k2.arg :=
        apply_field_target k2 _
      have hl1 : (applyAll [k2, k1] b.car).field k2.target = k1.arg := by
        rw [← ht]
        exact apply_field_target k1 _
      simp only [hl2, hl1] at hfield
      exact Call.eq_of_target_arg ht hfield.symm
    · exact Or.inl ht
  · intro hor
    rcases hor with hne | rfl
    · have happ : applyAll [k2, k1] b.car = applyAll [k1, k2] b.car :=
        (apply_comm hne b.car).symm
      rw [happ]
    · rfl

/-- C12 amended, on the one builder of a one-cell store: `SetBrand("A")` and `SetYear(1)`
commute, and `SetBrand("A")`, `SetBrand("B")` do not. -/
theorem C12_setters_commute_iff_witness :
    Live [CarBuilder.zero] (Ptr.addr 0) ∧
      chain [Call.setBrand "A", Call.setYear 1] (Ptr.addr 0) [CarBuilder.zero]
        = chain [Call.setYear 1, Call.setBrand "A"] (Ptr.addr 0) [CarBuilder.zero] ∧
      chain [Call.setBrand "A", Call.setBrand "B"] (Ptr.addr 0) [CarBuilder.zero]
        ≠ chain [Call.setBrand "B", Call.setBrand "A"] (Ptr.addr 0) [CarBuilder.zero] :=
  ⟨by decide,
    (C12_setters_commute_iff [CarBuilder.zero] (Ptr.addr 0) (by decide) (Call.setBrand "A")
      (Call.setYear 1)).2.2.mpr (Or.inl (by decide)),
    fun heq =>
      ((C12_setters_commute_iff [CarBuilder.zero] (Ptr.addr 0) (by decide) (Call.setBrand "A")
        (Call.setBrand "B")).2.2.mp heq).elim (fun hne => hne rfl)
        (fun hsame => absurd hsame (by decide))⟩

/-- C13. Frame of each setter: on every allocated builder, in every state of it, and for every
argument, the car built right after a setter call has, in the four fields the setter does not
target, the values of the car built before the call; and the call leaves every other builder
of the store as it was. -/
theorem C13_setter_frame (h : Heap) (c : Ptr) (hl : Live h c) :
    ∃ x, Build c h = Except.ok (x, h) ∧
      (∀ v : String, ∃ y h1, andThen (SetBrand c v h) Build = Except.ok (y, h1) ∧
        y.Model = x.Model ∧ y.Year = x.Year ∧ y.Engine = x.Engine ∧ y.Color = x.Color) ∧
      (∀ v : String, ∃ y h1, andThen (SetModel c v h) Build = Except.ok (y, h1) ∧
        y.Brand = x.Brand ∧ y.Year = x.Year ∧ y.Engine = x.Engine ∧ y.Color = x.Color) ∧
      (∀ v : Int, ∃ y h1, andThen (SetYear c v h) Build = Except.ok (y, h1) ∧
        y.Brand = x.Brand ∧ y.Model = x.Model ∧ y.Engine = x.Engine ∧ y.Color = x.Color) ∧
      (∀ v : String, ∃ y h1, andThen (SetEngine c v h) Build = Except.ok (y, h1) ∧
        y.Brand = x.Brand ∧ y.Model = x.Model ∧ y.Year = x.Year ∧ y.Color = x.Color) ∧
      (∀ v : String, ∃ y h1, andThen (SetColor c v h) Build = Except.ok (y, h1) ∧
        y.Brand = x.Brand ∧ y.Model = x.Model ∧ y.Year = x.Year ∧ y.Engine = x.Engine) ∧
      (∀ k : Call, ∃ h1, k.run c h = Except.ok (c, h1) ∧
        ∀ p : Ptr, p ≠ c → load p h1 = load p h) := by
  obtain ⟨a, b, rfl, hb⟩ := exists_of_Live hl
  refine ⟨b.car, Build_addr hb,
    fun v => ⟨_, _, runBuild_addr hb (Call.setBrand v), rfl, rfl, rfl, rfl⟩,
    fun v => ⟨_, _, runBuild_addr hb (Call.setModel v), rfl, rfl, rfl, rfl⟩,
    fun v => ⟨_, _, runBuild_addr hb (Call.setYear v), rfl, rfl, rfl, rfl⟩,
    fun v => ⟨_, _, runBuild_addr hb (Call.setEngine v), rfl, rfl, rfl, rfl⟩,
    fun v => ⟨_, _, runBuild_addr hb (Call.setColor v), rfl, rfl, rfl, rfl⟩, ?_⟩
  intro k
  refine ⟨_, run_addr hb k, ?_⟩
  intro p hp
  cases p with
  | null => rfl
  | addr a1 =>
    have hne : a ≠ a1 := fun haa => hp (by rw [haa])
    simp [load, List.getElem?_set_ne hne]

/-- C13, on a builder whose pending car is the Toyota of `main`, with `SetBrand("Honda")`:
the car built afterwards keeps model "Corolla", year 2024, engine "2.0L Turbo" and color
"Azul". -/
theorem C13_setter_frame_witness :
    Live [⟨⟨"Toyota", "Corolla", 2024, "2.0L Turbo", "Azul"⟩⟩] (Ptr.addr 0) ∧
      ∃ y h1, andThen (SetBrand (Ptr.addr 0) "Honda"
          [⟨⟨"Toyota", "Corolla", 2024, "2.0L Turbo", "Azul"⟩⟩]) Build = Except.ok (y, h1) ∧
        y.Model = "Corolla" ∧ y.Year = 2024 ∧ y.Engine = "2.0L Turbo" ∧ y.Color = "Azul" := by
  obtain ⟨x, hx, hbrand, _⟩ :=
    C13_setter_frame [⟨⟨"Toyota", "Corolla", 2024, "2.0L Turbo", "Azul"⟩⟩] (Ptr.addr 0)
      (by decide)
  have hx0 : Build (Ptr.addr 0) [⟨⟨"Toyota", "Corolla", 2024, "2.0L Turbo", "Azul"⟩⟩]
      = Except.ok ((⟨"Toyota", "Corolla", 2024, "2.0L Turbo", "Azul"⟩ : Car),
          [⟨⟨"Toyota", "Corolla", 2024, "2.0L Turbo", "Azul"⟩⟩]) := rfl
  rw [hx0] at hx
  have hxe : x = ⟨"Toyota", "Corolla", 2024, "2.0L Turbo", "Azul"⟩ :=
    ((Prod.mk.inj (Except.ok.inj hx)).1).symm
  subst hxe
  obtain ⟨y, h1, hrun, hm, hy, he, hc⟩ := hbrand "Honda"
  exact ⟨by decide, y, h1, hrun, hm, hy, he, hc⟩

/-- C14. Completeness and history-independence: for every car value, the five setters called
with its five field values, in any order, on an allocated builder in any prior state, make
`Build` return exactly that car; so they do on a fresh builder, whatever the store, and on a
builder that was used before for any chain of setter calls closed by a `Build`. -/
theorem C14_every_car_buildable (car : Car) (ks : List Call)
    (hperm : ks.Perm (settersOf car)) :
    (∀ (h : Heap) (c : Ptr), Live h c → ∃ h1, chainBuild ks c h = Except.ok (car, h1)) ∧
    (∀ h : Heap, ∃ h1, freshChainBuild ks h = Except.ok (car, h1)) ∧
    (∀ (h : Heap) (c : Ptr) (js : List Call), Live h c →
      ∃ h1, reuseChainBuild js ks c h = Except.ok (car, h1)) := by
  refine ⟨?_, ?_, ?_⟩
  · intro h c hl
    obtain ⟨a, b, rfl, hb⟩ := exists_of_Live hl
    refine ⟨h.set a ⟨car⟩, ?_⟩
    rw [chainBuild_addr ks hb, applyAll_perm_settersOf hperm]
  · intro h
    refine ⟨(h ++ [CarBuilder.zero]).set h.length ⟨car⟩, ?_⟩
    rw [freshChainBuild_eq, applyAll_perm_settersOf hperm]
  · intro h c js hl
    obtain ⟨a, b, rfl, hb⟩ := exists_of_Live hl
    refine ⟨(h.set a ⟨applyAll js b.car⟩).set a ⟨car⟩, ?_⟩
    simp only [reuseChainBuild, chainBuild_addr js hb, andThen]
    rw [chainBuild_addr ks (getElem?_set_self hb _), applyAll_perm_settersOf hperm]

/-- C14, for the Toyota of `main` with the setters in the order color, year, brand, engine,
model, on a builder that holds another car: the build returns the Toyota. -/
theorem C14_every_car_buildable_witness :
    [Call.setColor "Azul", Call.setYear 2024, Call.setBrand "Toyota",
        Call.setEngine "2.0L Turbo", Call.setModel "Corolla"].Perm
      (settersOf ⟨"Toyota", "Corolla", 2024, "2.0L Turbo", "Azul"⟩) ∧
    Live [⟨⟨"Honda", "Civic", 1999, "1.6L", "Preto"⟩⟩] (Ptr.addr 0) ∧
    ∃ h1, chainBuild [Call.setColor "Azul", Call.setYear 2024, Call.setBrand "Toyota",
        Call.setEngine "2.0L Turbo", Call.setModel "Corolla"] (Ptr.addr 0)
        [⟨⟨"Honda", "Civic", 1999, "1.6L", "Preto"⟩⟩]
      = Except.ok ((⟨"Toyota", "Corolla", 2024, "2.0L Turbo", "Azul"⟩ : Car), h1) :=
  ⟨by decide, by decide,
    (C14_every_car_buildable ⟨"Toyota", "Corolla", 2024, "2.0L Turbo", "Azul"⟩
      [Call.setColor "Azul", Call.setYear 2024, Call.setBrand "Toyota",
        Call.setEngine "2.0L Turbo", Call.setModel "Corolla"] (by decide)).1
      [⟨⟨"Honda", "Civic", 1999, "1.6L", "Preto"⟩⟩] (Ptr.addr 0) (by decide)⟩

end BuilderExample2
